import Mathlib

/-!
Shallow embedding of the hierarchical tree query / permission engine of the
repository `test-fastapi-template`.

The embedded code lives in:
  * `src/database.py`      — `like`, `pagination`, `select_all`, `select_tree`
  * `src/api/manage/service.py` — `transform_menu_tree_to_permission_tree`,
    `filter_disabled` (inside `get_menu_permission_tree`)
  * `src/api/route/service.py`  — `get_user_route_tree`

SQL clauses become boolean predicates on rows, a table becomes a `List` of
rows, `order_by(desc(table.id))` becomes an explicit insertion sort by
descending id, and the recursion of `select_tree` is given a `fuel`
parameter (the Python recursion has no depth bound; every theorem states
which fuel it uses).  `asyncio.gather` over recursive calls is sequenced as
`List.map` (pure store) / `List.mapM` over `Except` (failing store): gather
with default arguments propagates the first exception, which is exactly
`mapM`'s behaviour in the `Except` monad.
-/

/-- Boolean list-prefix test on characters (helper for the LIKE embedding). -/
def startsWithB : List Char → List Char → Bool
  | [], _ => true
  | _ :: _, [] => false
  | a :: as, b :: bs => a == b && startsWithB as bs

/-- Boolean substring (contiguous) test: does `s` contain `pat`? -/
def containsSubB (pat : List Char) : List Char → Bool
  | [] => startsWithB pat []
  | c :: rest => startsWithB pat (c :: rest) || containsSubB pat rest

/-- Embeds `database.like` (src/database.py:133): the SQL clause
`col(field).like(f"%{keyword}%")` applied to the row's field value.
Modelled from the spec for the part delegated to the external store:
LIKE under the store's default collation is case-insensitive substring
containment (the spec calls `keyword` a "case-insensitive substring
filter").  An empty keyword gives the pattern `%%`, which matches every
value. -/
def like (field : String) (keyword : String) : Bool :=
  containsSubB (keyword.toList.map Char.toLower) (field.toList.map Char.toLower)

/-- A materialized tree node: `response_model(children=..., **item.model_dump())`
in `select_tree` — the row's own fields plus a `children` list. -/
inductive TreeNode (α : Type) : Type where
  | node (val : α) (children : List (TreeNode α))

/-- The row carried by a tree node. -/
def TreeNode.val {α : Type} : TreeNode α → α
  | .node v _ => v

/-- The resolved children of a tree node. -/
def TreeNode.children {α : Type} : TreeNode α → List (TreeNode α)
  | .node _ c => c

/-- Embeds `src.models.types.Pagination`: the page envelope returned by
`database.pagination`. -/
structure Pagination (β : Type) where
  page : Nat
  pageSize : Nat
  total : Nat
  records : β

/-- Result of `select_tree`: a bare list, or a page envelope when both
`page` and `size` were supplied. -/
inductive SelectResult (α : Type) : Type where
  | list (records : List (TreeNode α))
  | page (pg : Pagination (List (TreeNode α)))

/-- The record list of a `SelectResult` (the bare list, or the envelope's
`records`). -/
def SelectResult.recordsOf {α : Type} : SelectResult α → List (TreeNode α)
  | .list l => l
  | .page p => p.records

/-- Embeds `database.pagination` (src/database.py:201) applied to the ordered
row list of its statement: `offset(0 if page <= 1 else page - 1).limit(size)`
for the window, and a second unwindowed execution of the same statement for
`total`. -/
def pagination {α : Type} (rows : List α) (page : Nat) (size : Nat) :
    Pagination (List α) :=
  { page := page
    pageSize := size
    total := rows.length
    records := (rows.drop (if page ≤ 1 then 0 else page - 1)).take size }

/-- A conjunction of SQL boolean clauses, as `.where(*clause)` builds it:
the row matches iff every clause holds. -/
def matchesAll {α : Type} (clauses : List (α → Bool)) (r : α) : Bool :=
  clauses.all fun c => c r

/-- Insert into a list ordered by strictly descending id. -/
def insertByIdDesc {α : Type} (getId : α → Nat) (x : α) : List α → List α
  | [] => [x]
  | y :: ys => if getId y < getId x then x :: y :: ys else y :: insertByIdDesc getId x ys

/-- Sort by descending id: embeds `order_by(desc(table.id))`. -/
def sortByIdDesc {α : Type} (getId : α → Nat) : List α → List α
  | [] => []
  | x :: xs => insertByIdDesc getId x (sortByIdDesc getId xs)

/-- Run `_select(table).where(*clause).order_by(desc(table.id))` against a
table held as a row list (`select_all`, src/database.py:223, on that
statement). -/
def runQuery {α : Type} (getId : α → Nat) (db : List α)
    (clauses : List (α → Bool)) : List α :=
  sortByIdDesc getId (db.filter (matchesAll clauses))

/-- The clause list `select_tree` builds (src/database.py:268-275):
start from `clause_list or []`; if `keyword_map_list and keyword`, append one
`like` clause per listed field; if `node_id or not keyword`, append the
`recursion_id == node_id` equality clause. -/
def buildClause {α : Type} (getNode : α → Nat) (kwFields : List (α → String))
    (clauseList : List (α → Bool)) (keyword : String) (nodeId : Nat) :
    List (α → Bool) :=
  let c :=
    if kwFields.isEmpty || keyword == "" then clauseList
    else clauseList ++ kwFields.map (fun f r => like (f r) keyword)
  if nodeId ≠ 0 ∨ keyword = "" then c ++ [fun r => getNode r == nodeId] else c

/-- Embeds the recursive body of `database.select_tree`
(src/database.py:237-311) in the unpaginated case, which is also exactly the
shape of every recursive child fetch (src/database.py:288-298): the recursion
passes the same `keyword` and `keyword_map_list` but `clause_list`, `page`
and `size` revert to their defaults (`clause_list` becomes `[]`, no
pagination).  `fuel` bounds the recursion depth; the Python code has no such
bound and diverges on cyclic data. -/
def selectTreeList {α : Type} (getId : α → Nat) (getNode : α → Nat)
    (kwFields : List (α → String)) (db : List α) :
    Nat → String → List (α → Bool) → Nat → List (TreeNode α)
  | 0, _, _, _ => []
  | fuel + 1, keyword, clauseList, nodeId =>
    let rows := runQuery getId db (buildClause getNode kwFields clauseList keyword nodeId)
    rows.map fun r =>
      .node r (selectTreeList getId getNode kwFields db fuel keyword [] (getId r))

/-- Embeds `database.select_tree` including its pagination branch
(src/database.py:279-311): when both `page` and `size` are integers the
top-level rows go through `pagination` and the envelope's records are
replaced by the materialized nodes; recursive child fetches are never
paginated. -/
def selectTree {α : Type} (getId : α → Nat) (getNode : α → Nat)
    (kwFields : List (α → String)) (db : List α) (fuel : Nat)
    (keyword : String) (clauseList : List (α → Bool)) (nodeId : Nat) :
    Option Nat → Option Nat → SelectResult α
  | some p, some s =>
    match fuel with
    | 0 => .page { page := p, pageSize := s, total := 0, records := [] }
    | fuel + 1 =>
      let rows := runQuery getId db (buildClause getNode kwFields clauseList keyword nodeId)
      let pg := pagination rows p s
      .page
        { page := pg.page
          pageSize := pg.pageSize
          total := pg.total
          records := pg.records.map fun r =>
            .node r (selectTreeList getId getNode kwFields db fuel keyword [] (getId r)) }
  | _, _ => .list (selectTreeList getId getNode kwFields db fuel keyword clauseList nodeId)

/-- A `{code, description}` leaf permission (src/api/manage/types.py:129). -/
structure SubPermission where
  code : String
  description : String
deriving DecidableEq, Repr

/-- The fields of `MenuTable` (src/api/manage/models.py:141-177) that the
tree engine and the permission tree builder read.  Presentation-only fields
(icons, i18n key, ordering, tab options, `query`, …) are carried by the real
record but never consulted by the embedded algorithms and are omitted. -/
structure Menu where
  id : Nat
  nodeId : Nat
  menuName : String
  routeName : String
  routePath : String
  menuType : Nat
  status : Bool
  constant : Bool
  buttons : List SubPermission
  interfaces : List SubPermission
deriving DecidableEq, Repr

/-- `RoleTable` fields read by the route service (src/api/manage/models.py:27-43). -/
structure Role where
  id : Nat
  status : Bool
  menuIds : List Nat
deriving DecidableEq, Repr

/-- `UserTable` fields read by `get_user_route_tree`
(src/api/manage/models.py:100-126); `role` is the resolved ORM relationship
(`None` when the user has no `roleId`). -/
structure User where
  isAdmin : Bool
  role : Option Role

/-- Embeds `route.service.get_user_route_tree` (src/api/route/service.py:76-96)
up to (and excluding) the final `transform_routes` reshaping: the clause
construction, the non-admin short-circuit, and the `select_tree` call with
`node_id=0` and the built `clause_list`. -/
def get_user_route_tree (db : List Menu) (fuel : Nat) (user : User) :
    List (TreeNode Menu) :=
  let clause : List (Menu → Bool) :=
    [fun m => m.constant == false, fun m => m.status == true]
  if user.isAdmin = false then
    match user.role with
    | none => []
    | some role =>
      if role.menuIds = [] then []
      else
        (selectTree Menu.id Menu.nodeId [] db fuel ""
          (clause ++ [fun m => role.menuIds.any fun menuId => m.id == menuId]) 0
          none none).recordsOf
  else
    (selectTree Menu.id Menu.nodeId [] db fuel "" clause 0 none none).recordsOf

/-- `get_menu_tree` (src/api/manage/service.py:350-372): `select_tree` on the
menu table with keyword fields `menuName`, `routeName`, `routePath` and
always-paginated (`page`/`size` default to 1/20). -/
def get_menu_tree (db : List Menu) (fuel : Nat) (nodeId : Nat)
    (keyword : String) (page : Nat) (size : Nat) : SelectResult Menu :=
  selectTree Menu.id Menu.nodeId [Menu.menuName, Menu.routeName, Menu.routePath]
    db fuel keyword [] nodeId (some page) (some size)

/-- A permission-tree node (`MenuPermissionTreeResponse`,
src/api/manage/models.py:205-212). -/
inductive MenuPermissionTreeResponse : Type where
  | mk (key : String) (label : String) (value : String) (disabled : Bool)
      (children : List MenuPermissionTreeResponse)

/-- `key` of a permission-tree node. -/
def MenuPermissionTreeResponse.key : MenuPermissionTreeResponse → String
  | .mk k _ _ _ _ => k

/-- `label` of a permission-tree node. -/
def MenuPermissionTreeResponse.label : MenuPermissionTreeResponse → String
  | .mk _ l _ _ _ => l

/-- `value` of a permission-tree node. -/
def MenuPermissionTreeResponse.value : MenuPermissionTreeResponse → String
  | .mk _ _ v _ _ => v

/-- `disabled` flag of a permission-tree node. -/
def MenuPermissionTreeResponse.disabled : MenuPermissionTreeResponse → Bool
  | .mk _ _ _ d _ => d

/-- `children` of a permission-tree node. -/
def MenuPermissionTreeResponse.children :
    MenuPermissionTreeResponse → List MenuPermissionTreeResponse
  | .mk _ _ _ _ c => c

/-- The f-string key `f"{depth}-{index}"` of a menu group node. -/
def groupKey (depth : Nat) (index : Nat) : String :=
  toString depth ++ "-" ++ toString index

/-- The f-string key `f"{depth}-{index}-{button_index}"` of a permission leaf. -/
def leafKey (depth : Nat) (index : Nat) (buttonIndex : Nat) : String :=
  toString depth ++ "-" ++ toString index ++ "-" ++ toString buttonIndex

/-- The leaves appended for `enumerate(permission_type, start=1)`
(src/api/manage/service.py:629-637): entry `j` (counting from the given
start index) becomes a leaf with `label=entry.description`,
`value=entry.code`, `disabled=False`. -/
def permissionLeaves (depth : Nat) (index : Nat) :
    Nat → List SubPermission → List MenuPermissionTreeResponse
  | _, [] => []
  | j, b :: bs =>
    .mk (leafKey depth index j) b.description b.code false []
      :: permissionLeaves depth index (j + 1) bs

/-- Embeds `transform_menu_tree_to_permission_tree`
(src/api/manage/service.py:605-641), with the 1-based `enumerate` index made
an explicit argument: the menu at position `i` of the current sibling list
becomes a disabled group with key `depth-i`, `label=menuName`,
`value=routePath`; its recursively transformed children (at `depth+1`,
positions restarting at 1) come first, then the permission leaves of the
selected kind. -/
def transform_menu_tree_to_permission_tree (kind : Menu → List SubPermission) :
    List (TreeNode Menu) → Nat → Nat → List MenuPermissionTreeResponse
  | [], _, _ => []
  | TreeNode.node m cs :: rest, depth, index =>
    let groups :=
      if cs.isEmpty then []
      else transform_menu_tree_to_permission_tree kind cs (depth + 1) 1
    let leaves := permissionLeaves depth index 1 (kind m)
    .mk (groupKey depth index) m.menuName m.routePath true (groups ++ leaves)
      :: transform_menu_tree_to_permission_tree kind rest depth (index + 1)

/-- Embeds the loop body of `filter_disabled`
(src/api/manage/service.py:643-667) with the loop-carried `has_active` flag
made explicit: `has_active` is initialized once per call (not per item) and,
once an enabled item is seen, stays true for every later sibling; each item's
children are first replaced by their recursively filtered version (only when
non-empty), and the item is kept when `has_active or item.children`. -/
def filterDisabledGo : Bool → List MenuPermissionTreeResponse →
    List MenuPermissionTreeResponse
  | _, [] => []
  | hasActive, MenuPermissionTreeResponse.mk k l v d cs :: rest =>
    let cs := if cs.isEmpty then cs else filterDisabledGo false cs
    let hasActive := hasActive || !d
    (if hasActive || !cs.isEmpty then [MenuPermissionTreeResponse.mk k l v d cs] else [])
      ++ filterDisabledGo hasActive rest

/-- Embeds `filter_disabled` (src/api/manage/service.py:643-667). -/
def filter_disabled (tree : List MenuPermissionTreeResponse) :
    List MenuPermissionTreeResponse :=
  filterDisabledGo false tree

/-- Embeds `get_menu_permission_tree` (src/api/manage/service.py:597-671):
resolve the full menu tree (`node_id=0`, no keyword, no extra clauses, no
pagination), transform it, prune it. -/
def get_menu_permission_tree (db : List Menu) (fuel : Nat)
    (kind : Menu → List SubPermission) : List MenuPermissionTreeResponse :=
  filter_disabled
    (transform_menu_tree_to_permission_tree kind
      (selectTreeList Menu.id Menu.nodeId [] db fuel "" [] 0) 1 1)

/-- A store query as the engine issues it: the clause conjunction of one
`session.exec`, plus the offset/limit window when the paginated statement is
executed. -/
structure StoreQuery (α : Type) where
  clauses : List (α → Bool)
  window : Option (Nat × Nat)

/-- `asyncio.gather` over one task per element, with default arguments: the
first raised exception aborts the whole gather; a fully successful gather
yields the results in order. -/
def gatherE {α β ε : Type} (f : α → Except ε β) : List α → Except ε (List β)
  | [] => .ok []
  | x :: xs =>
    match f x with
    | .error e => .error e
    | .ok y =>
      match gatherE f xs with
      | .error e => .error e
      | .ok ys => .ok (y :: ys)

/-- Embeds the recursive body of `select_tree` over a store that may fail
(`Except` models a raised store error): `select_all` is one store call, and
`asyncio.gather` over the recursive child fetches propagates the first error
instead of returning a partial result.  The recursion drops `clause_list`
just as the source does. -/
def selectTreeListE {α : Type} {ε : Type} (getId : α → Nat) (getNode : α → Nat)
    (kwFields : List (α → String)) (fetch : StoreQuery α → Except ε (List α)) :
    Nat → String → List (α → Bool) → Nat → Except ε (List (TreeNode α))
  | 0, _, _, _ => .ok []
  | fuel + 1, keyword, clauseList, nodeId =>
    match fetch ⟨buildClause getNode kwFields clauseList keyword nodeId, none⟩ with
    | .error e => .error e
    | .ok rows =>
      match gatherE (fun r =>
          selectTreeListE getId getNode kwFields fetch fuel keyword [] (getId r)) rows with
      | .error e => .error e
      | .ok childrenList => .ok (List.zipWith TreeNode.node rows childrenList)

/-- `get_user_route_tree` over a store that may fail, used to state the
short-circuit: the non-admin branches that return `[]` do so before any
store call. -/
def getUserRouteTreeE {ε : Type} (fetch : StoreQuery Menu → Except ε (List Menu))
    (fuel : Nat) (user : User) : Except ε (List (TreeNode Menu)) :=
  let clause : List (Menu → Bool) :=
    [fun m => m.constant == false, fun m => m.status == true]
  if user.isAdmin = false then
    match user.role with
    | none => .ok []
    | some role =>
      if role.menuIds = [] then .ok []
      else
        selectTreeListE Menu.id Menu.nodeId [] fetch fuel ""
          (clause ++ [fun m => role.menuIds.any fun menuId => m.id == menuId]) 0
  else
    selectTreeListE Menu.id Menu.nodeId [] fetch fuel "" clause 0

/-- All rows occurring anywhere (any depth) in a list of materialized trees. -/
def treeNodesList {α : Type} : List (TreeNode α) → List α
  | [] => []
  | TreeNode.node v cs :: rest => v :: (treeNodesList cs ++ treeNodesList rest)

/-! Concrete records used by witnesses and counterexamples. -/

/-- Menu "Sys": id 1, top level, non-constant, enabled. -/
def menuSys : Menu := ⟨1, 0, "Sys", "sys", "/sys", 1, true, false, [], []⟩

/-- Menu "Users": id 2, child of menu 1, non-constant, enabled. -/
def menuUsers : Menu := ⟨2, 1, "Users", "users", "/users", 2, true, false, [], []⟩

/-- Menu named "dashboard" whose route name and path do not contain "dash". -/
def menuDash : Menu := ⟨1, 0, "dashboard", "xyz", "/zzz", 1, true, false, [], []⟩

/-- Menu "xray": id 1, top level; its name contains "x". -/
def menuXray : Menu := ⟨1, 0, "xray", "r", "/r", 1, true, false, [], []⟩

/-- Menu "boo": id 2, child of menu 1; its name does not contain "x". -/
def menuBoo : Menu := ⟨2, 1, "boo", "b", "/b", 2, true, false, [], []⟩

/-- An enabled (selectable) permission-tree leaf with no children. -/
def permActive : MenuPermissionTreeResponse := .mk "1-1" "A" "/a" false []

/-- A disabled permission-tree node with no children, listed after
`permActive`. -/
def permDisabled : MenuPermissionTreeResponse := .mk "1-2" "B" "/b" true []

/-- A non-admin user bound to role 1, which may access menu ids `[1]` only. -/
def userRole1 : User := ⟨false, some ⟨1, true, [1]⟩⟩

/-- A non-admin user whose role has an empty `menuIds` list. -/
def userEmptyRole : User := ⟨false, some ⟨1, true, []⟩⟩

/-- A non-admin user with no role bound. -/
def userNoRole : User := ⟨false, none⟩

/-- A store that fails every query with the error "boom". -/
def fetchFail : StoreQuery Menu → Except String (List Menu) :=
  fun _ => .error "boom"

/-- A store that answers every query with no rows. -/
def fetchNone : StoreQuery Menu → Except String (List Menu) :=
  fun _ => .ok []

/-- A button permission with code "add". -/
def btnAdd : SubPermission := ⟨"add", "Add record"⟩

/-- Leaf-route menu carrying one button permission. -/
def menuWithBtn : Menu := ⟨1, 0, "Home", "home", "/home", 2, true, false, [btnAdd], []⟩

/-! Helper lemmas. -/

theorem matchesAll_append {α : Type} (cs ds : List (α → Bool)) (r : α) :
    matchesAll (cs ++ ds) r = (matchesAll cs r && matchesAll ds r) := by
  simp [matchesAll, List.all_append]

theorem mem_insertByIdDesc {α : Type} (getId : α → Nat) (x a : α)
    (l : List α) : x ∈ insertByIdDesc getId a l ↔ x = a ∨ x ∈ l := by
  induction l with
  | nil => simp [insertByIdDesc]
  | cons y ys ih =>
    simp only [insertByIdDesc]
    split
    · simp [List.mem_cons]
    · simp only [List.mem_cons, ih]
      tauto

theorem mem_sortByIdDesc {α : Type} (getId : α → Nat) (x : α) (l : List α) :
    x ∈ sortByIdDesc getId l ↔ x ∈ l := by
  induction l with
  | nil => simp [sortByIdDesc]
  | cons y ys ih =>
    simp only [sortByIdDesc, mem_insertByIdDesc, List.mem_cons, ih]

theorem mem_runQuery {α : Type} (getId : α → Nat) (db : List α)
    (cs : List (α → Bool)) (r : α) :
    r ∈ runQuery getId db cs ↔ r ∈ db ∧ matchesAll cs r = true := by
  rw [runQuery, mem_sortByIdDesc, List.mem_filter]


theorem buildClause_eq_append {α : Type} (getNode : α → Nat)
    (kwFields : List (α → String)) (cl : List (α → Bool)) (kw : String)
    (nid : Nat) :
    buildClause getNode kwFields cl kw nid =
      (if kwFields.isEmpty || kw == "" then cl
        else cl ++ kwFields.map fun f r => like (f r) kw)
      ++ (if nid ≠ 0 ∨ kw = "" then [fun r => getNode r == nid] else []) := by
  unfold buildClause
  by_cases hn : nid ≠ 0 ∨ kw = "" <;> simp [hn]

theorem matchesAll_buildClause {α : Type} (getNode : α → Nat)
    (kwFields : List (α → String)) (cl : List (α → Bool)) (kw : String)
    (nid : Nat) (r : α) :
    matchesAll (buildClause getNode kwFields cl kw nid) r = true ↔
      (matchesAll cl r = true
        ∧ (kwFields ≠ [] → kw ≠ "" → ∀ f ∈ kwFields, like (f r) kw = true)
        ∧ ((nid ≠ 0 ∨ kw = "") → getNode r = nid)) := by
  rw [buildClause_eq_append, matchesAll_append, Bool.and_eq_true]
  have hnode : matchesAll
      (if nid ≠ 0 ∨ kw = "" then [fun r => getNode r == nid] else []) r = true ↔
      ((nid ≠ 0 ∨ kw = "") → getNode r = nid) := by
    by_cases hn : nid ≠ 0 ∨ kw = ""
    · simp [hn, matchesAll]
    · simp [hn, matchesAll]
  rw [hnode]
  by_cases hb : (kwFields.isEmpty || (kw == "")) = true
  · have hvac : kwFields = [] ∨ kw = "" := by
      rcases Bool.or_eq_true_iff.mp hb with h | h
      · exact Or.inl (List.isEmpty_iff.mp h)
      · exact Or.inr (beq_iff_eq.mp h)
    rw [if_pos hb]
    constructor
    · rintro ⟨h1, h3⟩
      refine ⟨h1, ?_, h3⟩
      intro hf hk
      rcases hvac with h | h
      · exact absurd h hf
      · exact absurd h hk
    · rintro ⟨h1, _, h3⟩
      exact ⟨h1, h3⟩
  · have hf : kwFields ≠ [] := by
      intro h
      rw [h] at hb
      simp at hb
    have hk : kw ≠ "" := by
      intro h
      rw [h] at hb
      simp at hb
    have hmap : matchesAll (kwFields.map fun f r => like (f r) kw) r = true ↔
        ∀ f ∈ kwFields, like (f r) kw = true := by
      simp [matchesAll, List.all_map, List.all_eq_true, Function.comp]
    rw [if_neg hb, matchesAll_append, Bool.and_eq_true, hmap]
    constructor
    · rintro ⟨⟨h1, h2⟩, h3⟩
      exact ⟨h1, fun _ _ => h2, h3⟩
    · rintro ⟨h1, h2, h3⟩
      exact ⟨⟨h1, h2 hf hk⟩, h3⟩

theorem recordsOf_selectTree_none {α : Type} (getId getNode : α → Nat)
    (kwFields : List (α → String)) (db : List α) (fuel : Nat) (kw : String)
    (cl : List (α → Bool)) (nid : Nat) :
    (selectTree getId getNode kwFields db fuel kw cl nid none none).recordsOf =
      selectTreeList getId getNode kwFields db fuel kw cl nid := rfl

theorem mem_selectTreeList {α : Type} (getId getNode : α → Nat)
    (kwFields : List (α → String)) (db : List α) (fuel : Nat) (kw : String)
    (cl : List (α → Bool)) (nid : Nat) (t : TreeNode α) :
    t ∈ selectTreeList getId getNode kwFields db (fuel + 1) kw cl nid ↔
      ∃ r ∈ runQuery getId db (buildClause getNode kwFields cl kw nid),
        t = TreeNode.node r
          (selectTreeList getId getNode kwFields db fuel kw [] (getId r)) := by
  simp only [selectTreeList, List.mem_map]
  constructor
  · rintro ⟨r, hr, rfl⟩
    exact ⟨r, hr, rfl⟩
  · rintro ⟨r, hr, rfl⟩
    exact ⟨r, hr, rfl⟩

theorem selectTreeList_sound {α : Type} (getId getNode : α → Nat)
    (kwFields : List (α → String)) (db : List α) (fuel : Nat) (kw : String)
    (cl : List (α → Bool)) (nid : Nat) (t : TreeNode α)
    (ht : t ∈ selectTreeList getId getNode kwFields db fuel kw cl nid) :
    t.val ∈ db ∧ matchesAll (buildClause getNode kwFields cl kw nid) t.val = true := by
  cases fuel with
  | zero => simp [selectTreeList] at ht
  | succ n =>
    rcases (mem_selectTreeList getId getNode kwFields db n kw cl nid t).mp ht
      with ⟨r, hr, rfl⟩
    exact (mem_runQuery getId db _ r).mp hr

theorem mem_treeNodesList_map {α : Type} (g : α → List (TreeNode α))
    (rows : List α) (v : α) :
    v ∈ treeNodesList (rows.map fun r => TreeNode.node r (g r)) ↔
      ∃ r ∈ rows, v = r ∨ v ∈ treeNodesList (g r) := by
  induction rows with
  | nil => simp [treeNodesList]
  | cons a rest ih =>
    simp only [List.map_cons, treeNodesList, List.mem_cons, List.mem_append, ih]
    constructor
    · rintro (hva | hgl | ⟨r, hr, hvr⟩)
      · exact ⟨a, Or.inl rfl, Or.inl hva⟩
      · exact ⟨a, Or.inl rfl, Or.inr hgl⟩
      · exact ⟨r, Or.inr hr, hvr⟩
    · rintro ⟨r, hra | hr, hvr⟩
      · rw [hra] at hvr
        rcases hvr with hvr | hvr
        · exact Or.inl hvr
        · exact Or.inr (Or.inl hvr)
      · exact Or.inr (Or.inr ⟨r, hr, hvr⟩)

theorem treeNodesList_keyword {α : Type} (getId getNode : α → Nat)
    (kwFields : List (α → String)) (db : List α) (kw : String)
    (hf : kwFields ≠ []) (hk : kw ≠ "") :
    ∀ (fuel : Nat) (cl : List (α → Bool)) (nid : Nat) (v : α),
      v ∈ treeNodesList (selectTreeList getId getNode kwFields db fuel kw cl nid) →
      ∀ f ∈ kwFields, like (f v) kw = true := by
  intro fuel
  induction fuel with
  | zero =>
    intro cl nid v hv
    simp [selectTreeList, treeNodesList] at hv
  | succ n ih =>
    intro cl nid v hv f hfm
    rw [selectTreeList, mem_treeNodesList_map] at hv
    rcases hv with ⟨r, hr, hvr | hv⟩
    · have hm := ((mem_runQuery getId db _ r).mp hr).2
      rw [hvr]
      exact ((matchesAll_buildClause getNode kwFields cl kw nid r).mp hm).2.1 hf hk f hfm
    · exact ih [] (getId r) v hv f hfm

/-- Claim C5: the Tree Resolver's filter construction obeys the tie-break
policy — the row-level semantics of the built clause list shows the
`parentId` equality constraint is enforced exactly when `nodeId ≠ 0` or the
keyword is empty; with `nodeId = 0` and a non-empty keyword no parent
constraint appears (unscoped search), while an empty keyword always scopes
strictly by `nodeId`. -/
theorem select_tree_filter_policy {α : Type} (getNode : α → Nat)
    (kwFields : List (α → String)) (cl : List (α → Bool)) (kw : String)
    (nid : Nat) (r : α) :
    matchesAll (buildClause getNode kwFields cl kw nid) r = true ↔
      (matchesAll cl r = true
        ∧ (kwFields ≠ [] → kw ≠ "" → ∀ f ∈ kwFields, like (f r) kw = true)
        ∧ ((nid ≠ 0 ∨ kw = "") → getNode r = nid)) :=
  matchesAll_buildClause getNode kwFields cl kw nid r

/-- Claim C2, counterexample: a menu named "dashboard" whose `routeName`
("xyz") and `routePath` ("/zzz") do not contain "dash" is NOT matched by the
Tree Resolver with keyword "dash" over the menu keyword fields, even though
the keyword is a substring of one listed field (`menuName`) — so matching is
not OR across fields. -/
theorem keyword_single_field_not_matched :
    like menuDash.menuName "dash" = true
    ∧ selectTreeList Menu.id Menu.nodeId
        [Menu.menuName, Menu.routeName, Menu.routePath] [menuDash] 1 "dash" [] 0
      = [] := by
  constructor
  · decide
  · rfl

/-- Claim C2, amended: keyword matching is AND across the listed fields —
with a non-empty keyword and non-empty field list, a row is selected by the
Tree Resolver's query iff it is in the table, satisfies the extra clauses,
the keyword is a substring of EVERY listed field, and the parent-scope
clause (when active) holds. -/
theorem keyword_and_across_fields {α : Type} (getId getNode : α → Nat)
    (kwFields : List (α → String)) (db : List α) (cl : List (α → Bool))
    (kw : String) (nid : Nat) (r : α)
    (hf : kwFields ≠ []) (hk : kw ≠ "") :
    r ∈ runQuery getId db (buildClause getNode kwFields cl kw nid) ↔
      (r ∈ db ∧ matchesAll cl r = true
        ∧ (∀ f ∈ kwFields, like (f r) kw = true)
        ∧ ((nid ≠ 0 ∨ kw = "") → getNode r = nid)) := by
  rw [mem_runQuery, matchesAll_buildClause]
  constructor
  · rintro ⟨h1, h2, h3, h4⟩
    exact ⟨h1, h2, h3 hf hk, h4⟩
  · rintro ⟨h1, h2, h3, h4⟩
    exact ⟨h1, h2, fun _ _ => h3, h4⟩

/-- Witness for the amended C2: the menu "Sys" matches keyword "sys" over
all three menu keyword fields and is selected at the root level. -/
theorem keyword_and_across_fields_witness :
    menuSys ∈ runQuery Menu.id [menuSys]
      (buildClause Menu.nodeId [Menu.menuName, Menu.routeName, Menu.routePath]
        [] "sys" 0) :=
  (keyword_and_across_fields Menu.id Menu.nodeId
      [Menu.menuName, Menu.routeName, Menu.routePath] [menuSys] [] "sys" 0 menuSys
      (by simp) (by decide)).mpr
    ⟨by decide, by decide, by decide, by decide⟩

/-- Claim C1, counterexample: for a non-admin user whose role may access only
menu id 1, `get_user_route_tree` returns menu 1 together with its child menu
2 even though menu 2 is not in the role's `menuIds` — the id-membership
filter passed as `clause_list` is NOT applied at recursion depth 2. -/
theorem role_filter_not_applied_at_depth :
    userRole1.role = some ⟨1, true, [1]⟩
    ∧ menuUsers.id ∉ ([1] : List Nat)
    ∧ menuUsers.nodeId = menuSys.id
    ∧ get_user_route_tree [menuSys, menuUsers] 2 userRole1 =
        [TreeNode.node menuSys [TreeNode.node menuUsers []]] := by
  refine ⟨rfl, by decide, rfl, ?_⟩
  rfl

/-- Claim C1, amended: the recursive child fetches of the Tree Resolver keep
the same keyword and keyword fields but drop `clause_list` entirely — every
node's children equal a fetch with an empty extra-clause list, so
caller-supplied filters (such as the role id-membership filter) restrict
only the level the call was invoked at. -/
theorem extra_filters_dropped_in_recursion {α : Type} (getId getNode : α → Nat)
    (kwFields : List (α → String)) (db : List α) (fuel : Nat) (kw : String)
    (cl : List (α → Bool)) (nid : Nat) (t : TreeNode α)
    (ht : t ∈ selectTreeList getId getNode kwFields db (fuel + 1) kw cl nid) :
    t.children = selectTreeList getId getNode kwFields db fuel kw [] (getId t.val) := by
  rcases (mem_selectTreeList getId getNode kwFields db fuel kw cl nid t).mp ht
    with ⟨r, _, hteq⟩
  rw [hteq]
  rfl

/-- Witness for the amended C1: a concrete fetch with an extra clause whose
returned node's children equal the clause-free fetch at its id. -/
theorem extra_filters_dropped_in_recursion_witness :
    (TreeNode.node menuSys [TreeNode.node menuUsers []]).children =
      selectTreeList Menu.id Menu.nodeId [] [menuSys, menuUsers] 1 "" [] 1 :=
  extra_filters_dropped_in_recursion Menu.id Menu.nodeId [] [menuSys, menuUsers]
    1 "" [fun m => m.constant == false] 0
    (TreeNode.node menuSys [TreeNode.node menuUsers []])
    (List.mem_singleton.mpr rfl)

/-- Claim C4, counterexample: with `parentId=0` and keyword "x", the matched
menu "xray" appears top-level but its subtree is NOT unfiltered — its child
"boo" (which does not match "x") is absent from the returned subtree. -/
theorem matched_node_subtree_is_filtered :
    like menuXray.menuName "x" = true
    ∧ like menuBoo.menuName "x" = false
    ∧ menuBoo.nodeId = menuXray.id
    ∧ selectTreeList Menu.id Menu.nodeId [Menu.menuName]
        [menuXray, menuBoo] 2 "x" [] 0 = [TreeNode.node menuXray []] := by
  refine ⟨by decide, by decide, rfl, ?_⟩
  rfl

/-- Claim C4, amended: with `parentId=0` and a non-empty keyword every
matching row anywhere in the table does appear as a top-level entry, but the
attached subtrees are keyword-filtered at every depth: every node anywhere
in the result (any depth) has the keyword as a substring of all listed
fields, so non-matching descendants never appear. -/
theorem root_keyword_unscoped_but_propagated {α : Type}
    (getId getNode : α → Nat) (kwFields : List (α → String)) (db : List α)
    (kw : String) (cl : List (α → Bool))
    (hf : kwFields ≠ []) (hk : kw ≠ "") :
    (∀ (fuel : Nat) (r : α), r ∈ db →
        matchesAll (buildClause getNode kwFields cl kw 0) r = true →
        r ∈ (selectTreeList getId getNode kwFields db (fuel + 1) kw cl 0).map
          TreeNode.val)
    ∧ (∀ (fuel : Nat) (nid : Nat) (v : α),
        v ∈ treeNodesList (selectTreeList getId getNode kwFields db fuel kw cl nid) →
        ∀ f ∈ kwFields, like (f v) kw = true) := by
  constructor
  · intro fuel r hrdb hm
    have hmap : (selectTreeList getId getNode kwFields db (fuel + 1) kw cl 0).map
        TreeNode.val = runQuery getId db (buildClause getNode kwFields cl kw 0) := by
      rw [selectTreeList, List.map_map]
      exact List.map_id _
    rw [hmap, mem_runQuery]
    exact ⟨hrdb, hm⟩
  · exact fun fuel nid v hv =>
      treeNodesList_keyword getId getNode kwFields db kw hf hk fuel cl nid v hv

/-- Witness for the amended C4: "xray" matches "x" and appears top-level,
and every node of the returned forest matches "x" on `menuName`. -/
theorem root_keyword_unscoped_but_propagated_witness :
    menuXray ∈ (selectTreeList Menu.id Menu.nodeId [Menu.menuName]
        [menuXray, menuBoo] 1 "x" [] 0).map TreeNode.val
    ∧ like menuXray.menuName "x" = true := by
  constructor
  · exact (root_keyword_unscoped_but_propagated Menu.id Menu.nodeId
      [Menu.menuName] [menuXray, menuBoo] "x" [] (by simp) (by decide)).1 0
      menuXray (by decide) (by decide)
  · refine (root_keyword_unscoped_but_propagated Menu.id Menu.nodeId
      [Menu.menuName] [menuXray, menuBoo] "x" [] (by simp) (by decide)).2 1 0
      menuXray ?_ Menu.menuName (List.mem_singleton.mpr rfl)
    rw [show selectTreeList Menu.id Menu.nodeId [Menu.menuName]
      [menuXray, menuBoo] 1 "x" [] 0 = [TreeNode.node menuXray []] from rfl]
    simp [treeNodesList]

/-- Claim C10: `pagination` skips `p - 1` leading rows for page `p ≥ 2` (not
`(p-1)*size`), so consecutive page windows overlap — the tail of page `p` is
an initial segment of page `p+1`, and that shared block has `size - 1` rows
whenever the result set is long enough. -/
theorem pagination_overlapping_windows {α : Type} (rows : List α) (p s : Nat)
    (hp : 2 ≤ p) :
    (pagination rows p s).records = (rows.drop (p - 1)).take s
    ∧ (pagination rows p s).records.drop 1 =
        (pagination rows (p + 1) s).records.take (s - 1)
    ∧ (p + s - 1 ≤ rows.length →
        ((pagination rows p s).records.drop 1).length = s - 1) := by
  have hp1 : ¬p ≤ 1 := by omega
  have hp2 : ¬p + 1 ≤ 1 := by omega
  refine ⟨?_, ?_, ?_⟩
  · simp [pagination, hp1]
  · simp only [pagination, if_neg hp1, if_neg hp2]
    rw [List.drop_take, List.drop_drop, List.take_take]
    have h1 : p - 1 + 1 = p := by omega
    have h2 : min (s - 1) s = s - 1 := by omega
    rw [h1, h2]
    have h3 : p + 1 - 1 = p := by omega
    rw [h3]
  · intro hlen
    simp only [pagination, if_neg hp1, List.length_drop, List.length_take]
    omega

/-- Witness for C10 at `rows = [10,20,30,40]`, `p = 2`, `size = 2`: page 2 is
`[20,30]`, page 3 is `[30,40]`, and they share one row. -/
theorem pagination_overlapping_windows_witness :
    (pagination [10, 20, 30, 40] 2 2).records.drop 1 =
        (pagination [10, 20, 30, 40] 3 2).records.take 1
    ∧ ((pagination [10, 20, 30, 40] 2 2).records.drop 1).length = 1 := by
  have h := pagination_overlapping_windows [10, 20, 30, 40] 2 2 (by omega)
  exact ⟨h.2.1, h.2.2 (by decide)⟩

/-- Claim C6: pagination applies only at the invoking level — a paginated
root call with `size = 1` whose filtered row list has an entry at index
`p - 1` returns exactly that one top-level node, its children are exactly
what the unpaginated resolver returns rooted at that node (with the
recursion's empty clause list and one level less fuel), and the envelope's
`total` is the count of ALL rows matching the filter, not the page. -/
theorem pagination_breadth_only {α : Type} (getId getNode : α → Nat)
    (kwFields : List (α → String)) (db : List α) (fuel : Nat) (kw : String)
    (cl : List (α → Bool)) (nid : Nat) (p : Nat) (r : α)
    (hp : 1 ≤ p)
    (hr : (runQuery getId db (buildClause getNode kwFields cl kw nid))[p - 1]? =
      some r) :
    selectTree getId getNode kwFields db (fuel + 1) kw cl nid (some p) (some 1) =
      SelectResult.page
        { page := p
          pageSize := 1
          total := (runQuery getId db (buildClause getNode kwFields cl kw nid)).length
          records := [TreeNode.node r
            ((selectTree getId getNode kwFields db fuel kw [] (getId r)
              none none).recordsOf)] } := by
  have hwin : ((runQuery getId db (buildClause getNode kwFields cl kw nid)).drop
      (if p ≤ 1 then 0 else p - 1)).take 1 = [r] := by
    have hoff : (if p ≤ 1 then 0 else p - 1) = p - 1 := by
      by_cases h : p ≤ 1
      · have hp1 : p = 1 := by omega
        simp [h, hp1]
      · simp [h]
    rw [hoff]
    have h0 : ((runQuery getId db (buildClause getNode kwFields cl kw nid)).drop
        (p - 1))[0]? = some r := by
      rw [List.getElem?_drop]
      simpa using hr
    cases hdrop : (runQuery getId db (buildClause getNode kwFields cl kw nid)).drop
        (p - 1) with
    | nil => rw [hdrop] at h0; simp at h0
    | cons a tl =>
      rw [hdrop] at h0
      simp at h0
      simp [h0]
  rw [show selectTree getId getNode kwFields db (fuel + 1) kw cl nid
      (some p) (some 1) =
      SelectResult.page
        { page := p
          pageSize := 1
          total := (runQuery getId db (buildClause getNode kwFields cl kw nid)).length
          records := (((runQuery getId db
              (buildClause getNode kwFields cl kw nid)).drop
              (if p ≤ 1 then 0 else p - 1)).take 1).map fun x =>
            TreeNode.node x
              (selectTreeList getId getNode kwFields db fuel kw [] (getId x)) }
    from rfl]
  rw [hwin]
  rfl

/-- Witness for C6: a root call over the two-menu store with `page=1`,
`size=1` returns exactly menu "Sys" with its complete (unpaginated) subtree
and the full match count as `total`. -/
theorem pagination_breadth_only_witness :
    selectTree Menu.id Menu.nodeId [] [menuSys, menuUsers] 2 "" [] 0
        (some 1) (some 1) =
      SelectResult.page
        { page := 1
          pageSize := 1
          total := (runQuery Menu.id [menuSys, menuUsers]
            (buildClause Menu.nodeId [] [] "" 0)).length
          records := [TreeNode.node menuSys
            ((selectTree Menu.id Menu.nodeId [] [menuSys, menuUsers] 1 "" [] 1
              none none).recordsOf)] } :=
  pagination_breadth_only Menu.id Menu.nodeId [] [menuSys, menuUsers] 1 "" [] 0 1
    menuSys (by omega) rfl

/-- Claim C7: the transform phase — the menu at 0-based position `i` of a
sibling list transformed with 1-based start index `j` (the top call uses
`depth=1`, `j=1`) becomes a disabled group keyed `depth-(j+i)` with
`label = menuName`, `value = routePath`, whose children are its recursively
transformed menu children (at `depth+1`, positions restarting at 1) followed
by the selected permission entries; the entry at 0-based position `k` of the
permission list (1-based start `j`) becomes an enabled leaf keyed
`depth-idx-(j+k)` with `label = description`, `value = code`. -/
theorem transform_phase_shape (kind : Menu → List SubPermission) :
    (∀ (ts : List (TreeNode Menu)) (depth j i : Nat) (m : Menu)
        (cs : List (TreeNode Menu)), ts[i]? = some (TreeNode.node m cs) →
        (transform_menu_tree_to_permission_tree kind ts depth j)[i]? =
          some (MenuPermissionTreeResponse.mk (groupKey depth (j + i))
            m.menuName m.routePath true
            ((if cs.isEmpty then []
              else transform_menu_tree_to_permission_tree kind cs (depth + 1) 1)
              ++ permissionLeaves depth (j + i) 1 (kind m))))
    ∧ (∀ (perms : List SubPermission) (depth idx j k : Nat) (b : SubPermission),
        perms[k]? = some b →
        (permissionLeaves depth idx j perms)[k]? =
          some (MenuPermissionTreeResponse.mk (leafKey depth idx (j + k))
            b.description b.code false [])) := by
  constructor
  · intro ts
    induction ts with
    | nil =>
      intro depth j i m cs h
      simp at h
    | cons t rest ih =>
      intro depth j i m cs h
      cases t with
      | node mv cv =>
        cases i with
        | zero =>
          simp only [List.getElem?_cons_zero, Option.some.injEq,
            TreeNode.node.injEq] at h
          rcases h with ⟨hm, hc⟩
          subst hm
          subst hc
          simp [transform_menu_tree_to_permission_tree]
        | succ i =>
          have h2 : rest[i]? = some (TreeNode.node m cs) := by simpa using h
          have h3 := ih depth (j + 1) i m cs h2
          have hj : j + 1 + i = j + (i + 1) := by omega
          rw [hj] at h3
          simp only [transform_menu_tree_to_permission_tree,
            List.getElem?_cons_succ]
          exact h3
  · intro perms
    induction perms with
    | nil =>
      intro depth idx j k b h
      simp at h
    | cons a rest ih =>
      intro depth idx j k b h
      cases k with
      | zero =>
        simp only [List.getElem?_cons_zero, Option.some.injEq] at h
        subst h
        simp [permissionLeaves]
      | succ k =>
        have h2 : rest[k]? = some b := by simpa using h
        have h3 := ih depth idx (j + 1) k b h2
        have hj : j + 1 + k = j + (k + 1) := by omega
        rw [hj] at h3
        simp only [permissionLeaves, List.getElem?_cons_succ]
        exact h3

/-- Witness for C7: one leaf-route menu with one button, transformed at
depth 1, index 1: the group is keyed "1-1" and its single child leaf is
keyed "1-1-1" with the button's description and code. -/
theorem transform_phase_shape_witness :
    (transform_menu_tree_to_permission_tree Menu.buttons
        [TreeNode.node menuWithBtn []] 1 1)[0]? =
      some (MenuPermissionTreeResponse.mk (groupKey 1 (1 + 0))
        menuWithBtn.menuName menuWithBtn.routePath true
        ((if ([] : List (TreeNode Menu)).isEmpty then []
          else transform_menu_tree_to_permission_tree Menu.buttons [] (1 + 1) 1)
          ++ permissionLeaves 1 (1 + 0) 1 (Menu.buttons menuWithBtn)))
    ∧ (permissionLeaves 1 1 1 [btnAdd])[0]? =
      some (MenuPermissionTreeResponse.mk (leafKey 1 1 (1 + 0))
        btnAdd.description btnAdd.code false []) :=
  ⟨(transform_phase_shape Menu.buttons).1 [TreeNode.node menuWithBtn []] 1 1 0
      menuWithBtn [] rfl,
    (transform_phase_shape Menu.buttons).2 [btnAdd] 1 1 1 0 btnAdd rfl⟩

/-- Claim C3: evaluation of the prune phase at the failing input — in
`filter_disabled [permActive, permDisabled]` the trailing node is disabled
and has no children, so by the claimed rule (survive iff enabled or some
surviving child) it must be dropped; the code keeps it, because the
loop-carried `has_active` flag set by the earlier enabled sibling is never
reset. -/
theorem filter_disabled_keeps_trailing_disabled_sibling :
    permDisabled.disabled = true
    ∧ permDisabled.children = []
    ∧ filter_disabled [permActive, permDisabled] = [permActive, permDisabled] := by
  refine ⟨rfl, rfl, ?_⟩
  simp [filter_disabled, filterDisabledGo, permActive, permDisabled]

/-- Claim C8: the role-based access filter — an admin gets the plain
non-constant ∧ enabled query with no role restriction; a non-admin with no
role or an empty `menuIds` gets `[]` back without any store interaction (the
`Except` run succeeds against EVERY store, including one that fails all
queries); otherwise every returned top-level node is non-constant, enabled,
and its id is one of the role's `menuIds`. -/
theorem role_based_access_filter {ε : Type} (db : List Menu) (fuel : Nat)
    (user : User) (fetch : StoreQuery Menu → Except ε (List Menu)) :
    (user.isAdmin = true →
      get_user_route_tree db fuel user =
        (selectTree Menu.id Menu.nodeId [] db fuel ""
          [fun m => m.constant == false, fun m => m.status == true] 0
          none none).recordsOf
      ∧ ∀ t ∈ get_user_route_tree db fuel user,
          t.val.constant = false ∧ t.val.status = true)
    ∧ (user.isAdmin = false →
        (user.role = none ∨ ∃ role, user.role = some role ∧ role.menuIds = []) →
        get_user_route_tree db fuel user = []
        ∧ getUserRouteTreeE fetch fuel user = .ok [])
    ∧ (∀ role, user.isAdmin = false → user.role = some role →
        role.menuIds ≠ [] →
        ∀ t ∈ get_user_route_tree db fuel user,
          t.val.constant = false ∧ t.val.status = true ∧ t.val.id ∈ role.menuIds) := by
  refine ⟨?_, ?_, ?_⟩
  · intro hadm
    constructor
    · simp [get_user_route_tree, hadm]
    · intro t ht
      simp only [get_user_route_tree, hadm] at ht
      simp only [Bool.true_eq_false, if_false] at ht
      rw [recordsOf_selectTree_none] at ht
      have hsound := selectTreeList_sound Menu.id Menu.nodeId [] db fuel ""
        [fun m => m.constant == false, fun m => m.status == true] 0 t ht
      have hm := (matchesAll_buildClause Menu.nodeId []
        [fun m => m.constant == false, fun m => m.status == true] "" 0 t.val).mp
        hsound.2
      have h1 := hm.1
      simp only [matchesAll, List.all_cons, List.all_nil, Bool.and_true,
        Bool.and_eq_true, beq_iff_eq] at h1
      exact h1
  · intro hadm hrole
    rcases hrole with h | ⟨role, hr, hm⟩
    · constructor
      · simp [get_user_route_tree, hadm, h]
      · simp [getUserRouteTreeE, hadm, h]
    · constructor
      · simp [get_user_route_tree, hadm, hr, hm]
      · simp [getUserRouteTreeE, hadm, hr, hm]
  · intro role hadm hrole hne t ht
    simp only [get_user_route_tree, hadm, hrole, eq_self_iff_true, if_true] at ht
    rw [if_neg hne, recordsOf_selectTree_none] at ht
    have hsound := selectTreeList_sound Menu.id Menu.nodeId [] db fuel ""
      ([fun m => m.constant == false, fun m => m.status == true]
        ++ [fun m => role.menuIds.any fun menuId => m.id == menuId]) 0 t ht
    have hm := (matchesAll_buildClause Menu.nodeId [] _ "" 0 t.val).mp hsound.2
    have h1 := hm.1
    rw [matchesAll_append, Bool.and_eq_true] at h1
    rcases h1 with ⟨hbase, hor⟩
    simp only [matchesAll, List.all_cons, List.all_nil, Bool.and_true,
      Bool.and_eq_true, beq_iff_eq] at hbase
    simp only [matchesAll, List.all_cons, List.all_nil, Bool.and_true,
      List.any_eq_true, beq_iff_eq] at hor
    rcases hor with ⟨menuId, hmem, hid⟩
    exact ⟨hbase.1, hbase.2, hid ▸ hmem⟩

/-- Witness for C8: a non-admin with an empty-`menuIds` role and one with no
role both receive the empty tree, and the failing store is never consulted. -/
theorem role_based_access_filter_witness :
    get_user_route_tree [menuSys] 1 userEmptyRole = []
    ∧ getUserRouteTreeE fetchFail 1 userEmptyRole = .ok []
    ∧ get_user_route_tree [menuSys] 1 userNoRole = [] := by
  have h1 := (role_based_access_filter [menuSys] 1 userEmptyRole fetchFail).2.1
    rfl (Or.inr ⟨⟨1, true, []⟩, rfl, rfl⟩)
  have h2 := (role_based_access_filter [menuSys] 1 userNoRole fetchFail).2.1
    rfl (Or.inl rfl)
  exact ⟨h1.1, h1.2, h2.1⟩

theorem gatherE_error {α β ε : Type} (f : α → Except ε β) (l : List α) (e : ε)
    (h : gatherE f l = .error e) : ∃ x ∈ l, f x = .error e := by
  induction l with
  | nil => simp [gatherE] at h
  | cons a rest ih =>
    rw [gatherE] at h
    cases hfa : f a with
    | error e2 =>
      rw [hfa] at h
      simp only [Except.error.injEq] at h
      exact ⟨a, by simp, by rw [hfa, h]⟩
    | ok y =>
      rw [hfa] at h
      cases hg : gatherE f rest with
      | error e2 =>
        rw [hg] at h
        simp only [Except.error.injEq] at h
        rcases ih (by rw [hg, h]) with ⟨x, hx, hfx⟩
        exact ⟨x, by simp [hx], hfx⟩
      | ok ys =>
        rw [hg] at h
        simp at h

theorem gatherE_ok_length {α β ε : Type} (f : α → Except ε β) (l : List α)
    (ys : List β) (h : gatherE f l = .ok ys) : ys.length = l.length := by
  induction l generalizing ys with
  | nil =>
    simp only [gatherE, Except.ok.injEq] at h
    rw [← h]
    rfl
  | cons a rest ih =>
    rw [gatherE] at h
    cases hfa : f a with
    | error e => rw [hfa] at h; simp at h
    | ok y =>
      rw [hfa] at h
      cases hg : gatherE f rest with
      | error e => rw [hg] at h; simp at h
      | ok ys2 =>
        rw [hg] at h
        simp only [Except.ok.injEq] at h
        rw [← h]
        simp [ih ys2 hg]

theorem gatherE_ok_pair {α β ε : Type} (f : α → Except ε β) (l : List α)
    (ys : List β) (h : gatherE f l = .ok ys) :
    ∀ p ∈ l.zip ys, f p.1 = .ok p.2 := by
  induction l generalizing ys with
  | nil =>
    intro p hp
    simp at hp
  | cons a rest ih =>
    intro p hp
    rw [gatherE] at h
    cases hfa : f a with
    | error e => rw [hfa] at h; simp at h
    | ok y =>
      rw [hfa] at h
      cases hg : gatherE f rest with
      | error e => rw [hg] at h; simp at h
      | ok ys2 =>
        rw [hg] at h
        simp only [Except.ok.injEq] at h
        rw [← h] at hp
        simp only [List.zip_cons_cons, List.mem_cons] at hp
        rcases hp with hp | hp
        · rw [hp, hfa]
        · exact ih ys2 hg p hp

theorem exists_of_mem_zipWith {α β γ : Type} (g : α → β → γ) (as : List α)
    (bs : List β) (c : γ) (hc : c ∈ List.zipWith g as bs) :
    ∃ a b, (a, b) ∈ as.zip bs ∧ c = g a b := by
  induction as generalizing bs with
  | nil => simp at hc
  | cons a rest ih =>
    cases bs with
    | nil => simp at hc
    | cons b bs2 =>
      simp only [List.zipWith_cons_cons, List.mem_cons] at hc
      rcases hc with hc | hc
      · exact ⟨a, b, by simp, hc⟩
      · rcases ih bs2 hc with ⟨a2, b2, hmem, heq⟩
        exact ⟨a2, b2, by simp [hmem], heq⟩

theorem map_val_zipWith_node {α : Type} (rows : List α)
    (cs : List (List (TreeNode α))) (h : cs.length = rows.length) :
    (List.zipWith TreeNode.node rows cs).map TreeNode.val = rows := by
  induction rows generalizing cs with
  | nil => simp
  | cons r rest ih =>
    cases cs with
    | nil => simp at h
    | cons c cs2 =>
      simp only [List.zipWith_cons_cons, List.map_cons, List.cons.injEq]
      refine ⟨rfl, ih cs2 ?_⟩
      simpa using h

theorem selectTreeListE_error_source {α ε : Type} (getId getNode : α → Nat)
    (kwFields : List (α → String)) (fetch : StoreQuery α → Except ε (List α)) :
    ∀ (fuel : Nat) (kw : String) (cl : List (α → Bool)) (nid : Nat) (e : ε),
      selectTreeListE getId getNode kwFields fetch fuel kw cl nid = .error e →
      ∃ q, fetch q = .error e := by
  intro fuel
  induction fuel with
  | zero =>
    intro kw cl nid e h
    simp [selectTreeListE] at h
  | succ n ih =>
    intro kw cl nid e h
    rw [selectTreeListE] at h
    cases hfa : fetch ⟨buildClause getNode kwFields cl kw nid, none⟩ with
    | error e2 =>
      rw [hfa] at h
      simp only [Except.error.injEq] at h
      exact ⟨_, by rw [hfa, h]⟩
    | ok rows =>
      simp only [hfa] at h
      cases hg : gatherE (fun r =>
          selectTreeListE getId getNode kwFields fetch n kw [] (getId r)) rows with
      | error e2 =>
        rw [hg] at h
        simp only [Except.error.injEq] at h
        rcases gatherE_error _ rows e2 hg with ⟨r, _, hr⟩
        rcases ih kw [] (getId r) e2 hr with ⟨q, hq⟩
        exact ⟨q, by rw [hq, h]⟩
      | ok cls =>
        rw [hg] at h
        simp at h

theorem selectTreeListE_ok_sound {α ε : Type} (getId getNode : α → Nat)
    (kwFields : List (α → String)) (fetch : StoreQuery α → Except ε (List α))
    (fuel : Nat) (kw : String) (cl : List (α → Bool)) (nid : Nat)
    (ts : List (TreeNode α))
    (h : selectTreeListE getId getNode kwFields fetch (fuel + 1) kw cl nid = .ok ts) :
    fetch ⟨buildClause getNode kwFields cl kw nid, none⟩ = .ok (ts.map TreeNode.val)
    ∧ ∀ t ∈ ts,
        selectTreeListE getId getNode kwFields fetch fuel kw [] (getId t.val) =
          .ok t.children := by
  rw [selectTreeListE] at h
  cases hfa : fetch ⟨buildClause getNode kwFields cl kw nid, none⟩ with
  | error e => rw [hfa] at h; simp at h
  | ok rows =>
    simp only [hfa] at h
    cases hg : gatherE (fun r =>
        selectTreeListE getId getNode kwFields fetch fuel kw [] (getId r)) rows with
    | error e => rw [hg] at h; simp at h
    | ok cls =>
      rw [hg] at h
      simp only [Except.ok.injEq] at h
      have hlen := gatherE_ok_length _ rows cls hg
      constructor
      · rw [← h, map_val_zipWith_node rows cls hlen]
      · intro t ht
        rw [← h] at ht
        rcases exists_of_mem_zipWith TreeNode.node rows cls t ht
          with ⟨r, c, hmem, hteq⟩
        have := gatherE_ok_pair _ rows cls hg (r, c) hmem
        rw [hteq]
        exact this

/-- Claim C9: a store failure in any branch of the recursive fan-out aborts
the whole fetch — every error the resolver returns is literally an error some
store query produced, and a successful result accounts for every fetched
row: its top-level values are exactly the fetched rows and each node's
children are the successful result of its own recursive fetch (no branch is
silently dropped, no retry is issued). -/
theorem store_failure_aborts_tree {α ε : Type} (getId getNode : α → Nat)
    (kwFields : List (α → String)) (fetch : StoreQuery α → Except ε (List α))
    (fuel : Nat) (kw : String) (cl : List (α → Bool)) (nid : Nat) :
    (∀ e, selectTreeListE getId getNode kwFields fetch fuel kw cl nid = .error e →
      ∃ q, fetch q = .error e)
    ∧ (∀ ts,
        selectTreeListE getId getNode kwFields fetch (fuel + 1) kw cl nid = .ok ts →
        fetch ⟨buildClause getNode kwFields cl kw nid, none⟩ = .ok (ts.map TreeNode.val)
        ∧ ∀ t ∈ ts,
            selectTreeListE getId getNode kwFields fetch fuel kw [] (getId t.val) =
              .ok t.children) :=
  ⟨fun e h => selectTreeListE_error_source getId getNode kwFields fetch fuel
      kw cl nid e h,
    fun ts h => selectTreeListE_ok_sound getId getNode kwFields fetch fuel
      kw cl nid ts h⟩

/-- Witness for C9: against the always-failing store, the resolver returns
the store's own error "boom"; against the empty store, it succeeds and the
soundness clause yields the (empty) fetch result. -/
theorem store_failure_aborts_tree_witness :
    (∃ q, fetchFail q = Except.error "boom")
    ∧ fetchNone { clauses := buildClause Menu.nodeId [] [] "" 0, window := none } =
        Except.ok (([] : List (TreeNode Menu)).map TreeNode.val) :=
  ⟨(store_failure_aborts_tree Menu.id Menu.nodeId [] fetchFail 1 "" [] 0).1
      "boom" rfl,
    ((store_failure_aborts_tree Menu.id Menu.nodeId [] fetchNone 0 "" [] 0).2
      [] rfl).1⟩
